import Mathlib

/-
Verification of the Key Rotation Client (`src/groq_key_manager.py`).

The development shallowly embeds the `GroqKeyManager` class:

* Python strings are Lean `String`s; the case-insensitive substring tests of
  `_is_rate_limit_error` are carried out on `String.data : List Char`, with
  `Char.toLower` standing in for `str.lower()` (the texts involved are ASCII).
* Exceptions are embedded twice, matching the two concerns of the code:
  an inductive tree `PyExc` (text plus optional `__cause__` / `__context__`)
  for the classifier's textual behaviour, and a graph `ExcGraph` of object
  identities (needed for aliasing/cycles, which a tree cannot express) with a
  fuel-indexed classifier for the termination analysis.
* The mutable object state (`_keys`, `_current_index`, `_llm`) is the record
  `ManagerState`; `ChatGroq(...)` construction is `buildLlm`, recording the
  model name and the bound api key.  `temperature` and `cooldown_seconds`
  are floats that never influence control flow (the cooldown only sleeps),
  so they are left out of the state.
* The outcome of `self._llm.invoke(prompt)` is external; `invoke` is
  parametrised by an oracle giving the outcome of each successive dispatch.
  The `while attempts < total_possible` loop is structural recursion on the
  remaining attempt budget; besides the Python result the embedding returns
  the list of credential indices used by the successive dispatches and the
  final object state.
* `os.environ` is an association list; `sorted(os.environ.items())` is
  insertion sort by the lexicographic order on pairs of code-point strings
  (Python compares tuples and strings exactly this way; the comparator is
  antisymmetric, so which stable sorting algorithm is used cannot change
  the result).
-/

namespace GroqRotation

/-! ### Substring machinery (`in` on lowered strings) -/

/-- `listStartsWith n h` is true when `n` is a prefix of `h`. -/
def listStartsWith : List Char → List Char → Bool
  | [], _ => true
  | _ :: _, [] => false
  | n :: ns, h :: hs => n == h && listStartsWith ns hs

/-- `listContainsSub n h` is true when `n` occurs contiguously in `h`;
this is Python's `n in h` on strings. -/
def listContainsSub (needle : List Char) : List Char → Bool
  | [] => listStartsWith needle []
  | h :: hs => listStartsWith needle (h :: hs) || listContainsSub needle hs

/-- `str.lower()` (ASCII). -/
def lowerChars (s : String) : List Char := s.data.map Char.toLower

/-- `needle in hay` for a haystack already given as a char list. -/
def containsSub (hay : List Char) (needle : String) : Bool :=
  listContainsSub needle.data hay

/-! ### The textual tests of `_is_rate_limit_error`

`exc_str = str(exc).lower()` followed by the four `in` checks, in the
order the code performs them. -/

/-- The four substring checks of `_is_rate_limit_error` applied to
`str(exc)`. -/
def rateLimitTextCheck (excStr : String) : Bool :=
  let s := lowerChars excStr
  if containsSub s "429" then true
  else if containsSub s "rate" && containsSub s "limit" then true
  else if containsSub s "rate_limit" || containsSub s "ratelimit" then true
  else if containsSub s "too many requests" then true
  else false

/-! ### Exceptions as trees -/

/-- A Python exception value: its `str(...)` text, its `__cause__` and its
`__context__`.  As an inductive tree this rules out aliasing, which is what
the classifier's `cause is not exc` guard is about; that aspect is treated
separately with `ExcGraph` below. -/
inductive PyExc where
  | mk (text : String) (causeOf : Option PyExc) (contextOf : Option PyExc)

/-- `str(exc)`. -/
def PyExc.text : PyExc → String
  | .mk t _ _ => t

/-- `_is_rate_limit_error` on exception trees: the four textual checks,
then the walk into `__cause__ or __context__`.  On a tree the
`cause is not exc` identity guard never fires. -/
def isRateLimitError : PyExc → Bool
  | .mk t (some c) _ => if rateLimitTextCheck t then true else isRateLimitError c
  | .mk t none (some c) => if rateLimitTextCheck t then true else isRateLimitError c
  | .mk t none none => rateLimitTextCheck t

/-- The texts along the chain the classifier walks: the exception's own
text, then the texts along `__cause__ or __context__`. -/
def chainTexts : PyExc → List String
  | .mk t (some c) _ => t :: chainTexts c
  | .mk t none (some c) => t :: chainTexts c
  | .mk t none none => [t]

/-- Modelled from the spec's words (spec section 4.1, "Rate-limit
classifier"): text contains, case-insensitively, the literal 429 status
code, or the phrase "too many requests", or the token "rate" together with
"limit".  Used only to compare the spec's description of the textual test
with the code's `rateLimitTextCheck`. -/
def specRateLimitText (s : String) : Bool :=
  let t := lowerChars s
  containsSub t "429" || containsSub t "too many requests" ||
    (containsSub t "rate" && containsSub t "limit")

/-! ### Exceptions as object graphs (for the termination analysis)

A tree cannot express a cyclic `__cause__` / `__context__` structure, but
Python objects can form one.  `ExcGraph` names exception objects by `Nat`
identities; `isRateLimitErrorFuel` is `_is_rate_limit_error` again, with a
fuel argument making the possible non-termination of the Python recursion
explicit (`none` = the recursion exceeds the given depth). -/

/-- Exception objects by identity: `str(e)`, `e.__cause__`, `e.__context__`. -/
structure ExcGraph where
  text : Nat → String
  causeOf : Nat → Option Nat
  contextOf : Nat → Option Nat

/-- `getattr(exc, "__cause__", None) or getattr(exc, "__context__", None)`
(exception objects are truthy, so `or` falls through only on `None`). -/
def effCause (g : ExcGraph) (e : Nat) : Option Nat :=
  match g.causeOf e with
  | some c => some c
  | none => g.contextOf e

/-- `_is_rate_limit_error` on the object graph, with explicit recursion
fuel: the textual checks, then `if cause and cause is not exc: recurse`. -/
def isRateLimitErrorFuel (g : ExcGraph) : Nat → Nat → Option Bool
  | 0, _ => none
  | fuel + 1, e =>
    if rateLimitTextCheck (g.text e) then some true
    else
      match effCause g e with
      | some c => if c ≠ e then isRateLimitErrorFuel g fuel c else some false
      | none => some false

/-- One step of the walk the classifier performs: the effective cause,
stopped by the self-identity guard. -/
def causeChainStep (g : ExcGraph) (e : Nat) : Option Nat :=
  match effCause g e with
  | some c => if c ≠ e then some c else none
  | none => none

/-- Iterating `causeChainStep`; `causeChainIter g n e = none` says the
chain starting at `e` dies out in fewer than `n` steps. -/
def causeChainIter (g : ExcGraph) : Nat → Nat → Option Nat
  | 0, e => some e
  | n + 1, e =>
    match causeChainStep g e with
    | some c => causeChainIter g n c
    | none => none

/-! ### The manager state and its operations -/

/-- A `ChatGroq` handle as `_build_llm` constructs it: the fixed model
name and the one credential it is bound to. -/
structure ChatGroqHandle where
  model : String
  apiKey : String
deriving DecidableEq

/-- `_build_llm`. -/
def buildLlm (model : String) (apiKey : String) : ChatGroqHandle :=
  { model := model, apiKey := apiKey }

/-- The mutable object state of `GroqKeyManager`: `self.model`,
`self.max_retries_per_key`, `self._keys`, `self._current_index`,
`self._llm`. -/
structure ManagerState where
  model : String
  maxRetriesPerKey : Nat
  keys : List String
  currentIndex : Nat
  llm : ChatGroqHandle
deriving DecidableEq

/-- `_rotate`: advance to the next key if any, rebuilding the handle;
returns whether advancement was possible together with the new state. -/
def rotate (s : ManagerState) : Bool × ManagerState :=
  let next := s.currentIndex + 1
  if s.keys.length ≤ next then (false, s)
  else (true, { s with currentIndex := next,
                       llm := buildLlm s.model (s.keys.getD next "") })

/-- `reset`: back to the first key, rebuilding the handle. -/
def reset (s : ManagerState) : ManagerState :=
  { s with currentIndex := 0, llm := buildLlm s.model (s.keys.getD 0 "") }

/-! ### Key discovery (`_load_keys`) and construction (`__init__`) -/

/-- `^GROQ_API_KEY(_\d+)?$` (ASCII digits). -/
def matchesKeyPattern (name : String) : Bool :=
  name == "GROQ_API_KEY" ||
    (listStartsWith "GROQ_API_KEY_".data name.data &&
      (let suffix := name.data.drop "GROQ_API_KEY_".data.length
       !suffix.isEmpty && suffix.all Char.isDigit))

/-- Python `str.strip(c)`: drop every leading and trailing `c`. -/
def stripEnds (p : Char → Bool) (l : List Char) : List Char :=
  ((l.dropWhile p).reverse.dropWhile p).reverse

/-- `value.strip().strip('"').strip("'")`. -/
def cleanValue (v : String) : String :=
  ⟨stripEnds (· == '\'') (stripEnds (· == '"')
    (stripEnds Char.isWhitespace v.data))⟩

/-- Python's ordering on `(name, value)` pairs of code-point strings, as
used by `sorted(os.environ.items())`. -/
def envRel (a b : String × String) : Prop :=
  a.1.data < b.1.data ∨
    (a.1.data = b.1.data ∧ (a.2.data < b.2.data ∨ a.2.data = b.2.data))

instance : DecidableRel envRel := fun a b => by
  unfold envRel; infer_instance

/-- The accumulation loop of `_load_keys`: `keys` is the list built so
far, `seen` the set of cleaned values already kept. -/
def loadKeysGo : List (String × String) → List String → List String → List String
  | [], keys, _ => keys
  | (n, v) :: rest, keys, seen =>
    if matchesKeyPattern n && v != "" then
      let clean := cleanValue v
      if clean != "" && !(seen.contains clean) then
        loadKeysGo rest (keys ++ [clean]) (clean :: seen)
      else loadKeysGo rest keys seen
    else loadKeysGo rest keys seen

/-- `_load_keys`: iterate over `sorted(os.environ.items())`, keep matching
non-empty entries, strip, drop blanks, deduplicate by exact value. -/
def loadKeys (env : List (String × String)) : List String :=
  loadKeysGo (List.insertionSort envRel env) [] []

/-- `__init__`: discover keys; `ValueError` (modelled as `Except.error`)
when none are found, else state with cursor 0 and the handle built from
key 0. -/
def initManager (model : String) (maxRetriesPerKey : Nat)
    (env : List (String × String)) : Except String ManagerState :=
  let keys := loadKeys env
  if keys.isEmpty then
    .error "No Groq API keys found in .env. Expected GROQ_API_KEY, GROQ_API_KEY_0, GROQ_API_KEY_1, ..."
  else
    .ok { model := model, maxRetriesPerKey := maxRetriesPerKey, keys := keys,
          currentIndex := 0, llm := buildLlm model (keys.getD 0 "") }

/-! ### `invoke` -/

/-- What a single `self._llm.invoke(prompt)` dispatch does: return a
response text, or raise an exception. -/
inductive DispatchOutcome where
  | ok (text : String)
  | err (e : PyExc)

/-- How one `invoke` call ends: normal return, re-raise of a
non-rate-limit exception, `AllKeysExhaustedError ... from exc` inside the
loop, or the defensive `AllKeysExhaustedError` after the loop. -/
inductive InvokeResult where
  | success (text : String)
  | propagated (e : PyExc)
  | exhausted (cause : PyExc)
  | exhaustedSafetyNet

/-- The `while attempts < total_possible` loop.  `fuel` is the remaining
attempt budget (`total_possible - attempts`), `d` counts the dispatches
performed so far in this call (indexing the oracle).  Returns the Python
outcome, the credential index used by each dispatch in order, and the
final state.  The `time.sleep(cooldown)` between a successful rotation
and the next attempt has no modelled effect. -/
def invokeLoop (oracle : Nat → DispatchOutcome) :
    Nat → ManagerState → Nat → InvokeResult × List Nat × ManagerState
  | 0, s, _ => (.exhaustedSafetyNet, [], s)
  | fuel + 1, s, d =>
    match oracle d with
    | .ok text => (.success text, [s.currentIndex], s)
    | .err e =>
      if isRateLimitError e then
        let ro := rotate s
        if ro.1 then
          let r := invokeLoop oracle fuel ro.2 (d + 1)
          (r.1, s.currentIndex :: r.2.1, r.2.2)
        else
          (.exhausted e, [s.currentIndex], ro.2)
      else
        (.propagated e, [s.currentIndex], s)

/-- `invoke`: run the loop with the full budget
`len(self._keys) * (self.max_retries_per_key + 1)`. -/
def invoke (oracle : Nat → DispatchOutcome) (s : ManagerState) :
    InvokeResult × List Nat × ManagerState :=
  invokeLoop oracle (s.keys.length * (s.maxRetriesPerKey + 1)) s 0

/-! ### Concrete fixtures (used only to instantiate theorems) -/

/-- State of a manager holding one key with per-key retry allowance 1
(the constructor's default). -/
def oneKeyState : ManagerState :=
  { model := "m", maxRetriesPerKey := 1, keys := ["k"], currentIndex := 0,
    llm := buildLlm "m" "k" }

/-- State of a manager holding three keys with per-key retry allowance 0. -/
def threeKeyState : ManagerState :=
  { model := "m", maxRetriesPerKey := 0, keys := ["a", "b", "c"],
    currentIndex := 0, llm := buildLlm "m" "a" }

/-- An exception whose text carries the 429 status code. -/
def exc429 : PyExc := .mk "HTTP 429" none none

/-- An exception the classifier does not recognise. -/
def excBoom : PyExc := .mk "connection refused" none none

/-- Two exception objects that are each other's `__cause__`: a cycle the
self-identity guard does not break. -/
def cycleGraph : ExcGraph :=
  { text := fun _ => "ok", causeOf := fun e => some (1 - e),
    contextOf := fun _ => none }

/-- An exception object that is its own `__cause__`: the guard breaks
this cycle. -/
def selfGraph : ExcGraph :=
  { text := fun _ => "ok", causeOf := fun _ => some 0,
    contextOf := fun _ => none }

/-- A single exception object with no cause and no context. -/
def lineGraph : ExcGraph :=
  { text := fun _ => "ok", causeOf := fun _ => none,
    contextOf := fun _ => none }

/-- A two-key manager state whose cursor has already rotated to key 1. -/
def rotatedState : ManagerState :=
  { model := "m", maxRetriesPerKey := 0, keys := ["a", "b"],
    currentIndex := 1, llm := buildLlm "m" "b" }

/-! ## Theorems -/

/-! ### Absorption: the compound forms imply the token pair -/

theorem listStartsWith_append_left {a b h : List Char}
    (hw : listStartsWith (a ++ b) h = true) : listStartsWith a h = true := by
  induction a generalizing h with
  | nil => rfl
  | cons x xs ih =>
    cases h with
    | nil => simp [listStartsWith] at hw
    | cons y ys =>
      simp only [List.cons_append, listStartsWith, Bool.and_eq_true] at hw ⊢
      exact ⟨hw.1, ih hw.2⟩

theorem listStartsWith_contains {n h : List Char}
    (hw : listStartsWith n h = true) : listContainsSub n h = true := by
  cases h with
  | nil =>
    cases n with
    | nil => rfl
    | cons x xs => simp [listStartsWith] at hw
  | cons y ys => simp [listContainsSub, hw]

theorem listStartsWith_append_right {a b h : List Char}
    (hw : listStartsWith (a ++ b) h = true) : listContainsSub b h = true := by
  induction a generalizing h with
  | nil => exact listStartsWith_contains hw
  | cons x xs ih =>
    cases h with
    | nil => simp [listStartsWith] at hw
    | cons y ys =>
      simp only [List.cons_append, listStartsWith, Bool.and_eq_true] at hw
      have := ih hw.2
      simp [listContainsSub, this]

theorem listContainsSub_append {a b h : List Char}
    (hw : listContainsSub (a ++ b) h = true) :
    listContainsSub a h = true ∧ listContainsSub b h = true := by
  induction h with
  | nil =>
    cases a with
    | nil =>
      cases b with
      | nil => exact ⟨rfl, rfl⟩
      | cons y ys => simp [listContainsSub, listStartsWith] at hw
    | cons x xs => simp [listContainsSub, listStartsWith] at hw
  | cons y ys ih =>
    simp only [listContainsSub, Bool.or_eq_true] at hw
    rcases hw with hw | hw
    · exact ⟨listStartsWith_contains (listStartsWith_append_left hw),
        listStartsWith_append_right hw⟩
    · have := ih hw
      exact ⟨by simp [listContainsSub, this.1], by simp [listContainsSub, this.2]⟩

theorem containsSub_rate_limit_of_compound (t : List Char)
    (hw : containsSub t "rate_limit" = true ∨ containsSub t "ratelimit" = true) :
    containsSub t "rate" = true ∧ containsSub t "limit" = true := by
  rcases hw with hw | hw
  · have h1 : listContainsSub ("rate".data ++ "_limit".data) t = true := hw
    have h2 : listContainsSub ("rate_".data ++ "limit".data) t = true := hw
    exact ⟨(listContainsSub_append h1).1, (listContainsSub_append h2).2⟩
  · have h1 : listContainsSub ("rate".data ++ "limit".data) t = true := hw
    exact ⟨(listContainsSub_append h1).1, (listContainsSub_append h1).2⟩

/-- The code's textual test coincides with the spec's description of it:
the `rate_limit` / `ratelimit` compound checks are absorbed by the
"rate and limit" check. -/
theorem rateLimitTextCheck_eq_spec (s : String) :
    rateLimitTextCheck s = specRateLimitText s := by
  unfold rateLimitTextCheck specRateLimitText
  cases h429 : containsSub (lowerChars s) "429" <;>
    cases hmany : containsSub (lowerChars s) "too many requests" <;>
      cases hrate : containsSub (lowerChars s) "rate" <;>
        cases hlimit : containsSub (lowerChars s) "limit" <;>
          cases hcomp : (containsSub (lowerChars s) "rate_limit" ||
              containsSub (lowerChars s) "ratelimit") <;>
            first
              | (have hc := containsSub_rate_limit_of_compound (lowerChars s)
                  ((Bool.or_eq_true _ _).mp hcomp)
                 simp_all)
              | simp_all

/-- `isRateLimitError` is the textual test somewhere along the walked
chain. -/
theorem isRateLimitError_eq_any :
    (e : PyExc) → isRateLimitError e = (chainTexts e).any rateLimitTextCheck
  | .mk t (some c) x => by
    cases h : rateLimitTextCheck t <;>
      simp [isRateLimitError, chainTexts, h, isRateLimitError_eq_any c]
  | .mk t none (some c) => by
    cases h : rateLimitTextCheck t <;>
      simp [isRateLimitError, chainTexts, h, isRateLimitError_eq_any c]
  | .mk t none none => by
    cases h : rateLimitTextCheck t <;> simp [isRateLimitError, chainTexts, h]

/-! ### Rotation facts -/

theorem rotate_fst_true {s : ManagerState} :
    (rotate s).1 = true ↔ s.currentIndex + 1 < s.keys.length := by
  simp only [rotate]
  split <;> simp <;> omega

theorem rotate_snd_true {s : ManagerState} (h : (rotate s).1 = true) :
    (rotate s).2 =
      { s with
        currentIndex := s.currentIndex + 1
        llm := buildLlm s.model (s.keys.getD (s.currentIndex + 1) "") } := by
  by_cases hc : s.keys.length ≤ s.currentIndex + 1
  · simp [rotate, hc] at h
  · simp [rotate, hc]

theorem rotate_snd_false {s : ManagerState} (h : (rotate s).1 = false) :
    (rotate s).2 = s := by
  by_cases hc : s.keys.length ≤ s.currentIndex + 1
  · simp [rotate, hc]
  · simp [rotate, hc] at h

/-! ### Invoke-loop facts -/

/-- Every dispatch list produced by the loop is a contiguous run of
credential indices starting at the entry cursor. -/
theorem invokeLoop_dispatches_range (oracle : Nat → DispatchOutcome) :
    ∀ fuel s d, ∃ k,
      (invokeLoop oracle fuel s d).2.1 = List.range' s.currentIndex k := by
  intro fuel
  induction fuel with
  | zero => intro s d; exact ⟨0, rfl⟩
  | succ f ih =>
    intro s d
    unfold invokeLoop
    match horacle : oracle d with
    | .ok text => exact ⟨1, rfl⟩
    | .err e =>
      by_cases hrl : isRateLimitError e = true
      · simp only [hrl, if_pos]
        cases hro : (rotate s).1 with
        | true =>
          obtain ⟨k, hk⟩ := ih (rotate s).2 (d + 1)
          refine ⟨k + 1, ?_⟩
          rw [List.range'_succ]
          simp only [hro, if_pos]
          rw [hk, rotate_snd_true hro]
        | false => exact ⟨1, by simp [hro]⟩
      · simp only [Bool.not_eq_true] at hrl
        exact ⟨1, by simp [hrl]⟩

/-- The loop never dispatches more often than there are credentials at or
after the entry cursor. -/
theorem invokeLoop_length_le (oracle : Nat → DispatchOutcome) :
    ∀ fuel s d, s.currentIndex < s.keys.length →
      ((invokeLoop oracle fuel s d).2.1).length ≤
        s.keys.length - s.currentIndex := by
  intro fuel
  induction fuel with
  | zero => intro s d hlt; simp [invokeLoop]
  | succ f ih =>
    intro s d hlt
    unfold invokeLoop
    match horacle : oracle d with
    | .ok text => simp; omega
    | .err e =>
      by_cases hrl : isRateLimitError e = true
      · simp only [hrl, if_pos]
        cases hro : (rotate s).1 with
        | true =>
          have hnext : s.currentIndex + 1 < s.keys.length := rotate_fst_true.mp hro
          have h2 := ih (rotate s).2 (d + 1)
            (by rw [rotate_snd_true hro]; simpa using hnext)
          rw [rotate_snd_true hro] at h2
          simp only [hro, if_pos, List.length_cons]
          rw [rotate_snd_true hro]
          dsimp only at h2
          omega
        | false => simp [hro]; omega
      · simp only [Bool.not_eq_true] at hrl
        simp [hrl]
        omega

/-- With enough fuel relative to the remaining credentials, the loop
ends before the budget does: the safety net cannot fire. -/
theorem invokeLoop_ne_safetyNet (oracle : Nat → DispatchOutcome) :
    ∀ fuel s d, 1 ≤ fuel → s.keys.length ≤ fuel + s.currentIndex →
      (invokeLoop oracle fuel s d).1 ≠ .exhaustedSafetyNet := by
  intro fuel
  induction fuel with
  | zero => intro s d h1 _; omega
  | succ f ih =>
    intro s d _ hfuel
    unfold invokeLoop
    match horacle : oracle d with
    | .ok text => simp
    | .err e =>
      by_cases hrl : isRateLimitError e = true
      · simp only [hrl, if_pos]
        cases hro : (rotate s).1 with
        | true =>
          have hnext : s.currentIndex + 1 < s.keys.length := rotate_fst_true.mp hro
          simp only [hro, if_pos]
          rw [rotate_snd_true hro]
          exact ih _ (d + 1) (by omega) (by simp; omega)
        | false => simp [hro]
      · simp only [Bool.not_eq_true] at hrl
        simp [hrl]

/-- When the loop has fuel left, at least one dispatch happens and it uses
the entry cursor. -/
theorem invokeLoop_head (oracle : Nat → DispatchOutcome) (f : Nat)
    (s : ManagerState) (d : Nat) :
    ((invokeLoop oracle (f + 1) s d).2.1).head? = some s.currentIndex := by
  unfold invokeLoop
  match horacle : oracle d with
  | .ok text => rfl
  | .err e =>
    by_cases hrl : isRateLimitError e = true
    · simp only [hrl, if_pos]
      cases hro : (rotate s).1 with
      | true => simp [hro]
      | false => simp [hro]
    · simp only [Bool.not_eq_true] at hrl
      simp [hrl]

/-- The canonical worst case: when every dispatch raises a rate-limit
error, the loop walks the remaining credentials one per error, in order,
and ends in the in-loop exhaustion raise chained to the error of the last
dispatch. -/
theorem invokeLoop_allRL (errs : Nat → PyExc)
    (hAll : ∀ k, isRateLimitError (errs k) = true) :
    ∀ fuel s d, s.currentIndex < s.keys.length →
      s.keys.length ≤ fuel + s.currentIndex →
      (invokeLoop (fun k => .err (errs k)) fuel s d).1 =
          .exhausted (errs (d + (s.keys.length - 1 - s.currentIndex))) ∧
        (invokeLoop (fun k => .err (errs k)) fuel s d).2.1 =
          List.range' s.currentIndex (s.keys.length - s.currentIndex) ∧
        (invokeLoop (fun k => .err (errs k)) fuel s d).2.2.currentIndex =
          s.keys.length - 1 ∧
        (invokeLoop (fun k => .err (errs k)) fuel s d).2.2.keys = s.keys := by
  intro fuel
  induction fuel with
  | zero => intro s d h1 h2; omega
  | succ f ih =>
    intro s d hlt hfuel
    unfold invokeLoop
    simp only [hAll, if_true]
    cases hro : (rotate s).1 with
    | false =>
      have hlast : s.keys.length ≤ s.currentIndex + 1 := by
        by_contra hcon
        push_neg at hcon
        rw [rotate_fst_true.mpr hcon] at hro
        exact Bool.noConfusion hro
      have he1 : d + (s.keys.length - 1 - s.currentIndex) = d := by omega
      have he2 : s.keys.length - s.currentIndex = 1 := by omega
      rw [rotate_snd_false hro]
      simp [hro, he1, he2, List.range'_one]
      omega
    | true =>
      have hnext : s.currentIndex + 1 < s.keys.length := rotate_fst_true.mp hro
      have ihh := ih (rotate s).2 (d + 1)
        (by rw [rotate_snd_true hro]; simpa using hnext)
        (by rw [rotate_snd_true hro]; simp; omega)
      rw [rotate_snd_true hro] at ihh
      dsimp only at ihh
      simp only [rotate_snd_true hro, if_true]
      refine ⟨?_, ?_, ?_, ?_⟩
      · rw [ihh.1]
        have : d + 1 + (s.keys.length - 1 - (s.currentIndex + 1)) =
            d + (s.keys.length - 1 - s.currentIndex) := by omega
        rw [this]
      · rw [ihh.2.1]
        have : s.keys.length - s.currentIndex =
            (s.keys.length - (s.currentIndex + 1)) + 1 := by omega
        rw [this, List.range'_succ]
      · exact ihh.2.2.1
      · exact ihh.2.2.2

/-! ### Claim C4 -/

/-- C4: the rate-limit classifier returns true exactly when some error
along the chain of wrapped causes (the error itself included) has a text
that, case-insensitively, contains "429", or contains "too many
requests", or contains both "rate" and "limit" (the compound forms
"rate_limit" / "ratelimit" being instances of the latter); in
particular it is true when only a chained cause's text matches, and
false when no text at any depth matches. -/
theorem claim_C4 (e : PyExc) :
    isRateLimitError e = (chainTexts e).any specRateLimitText := by
  rw [isRateLimitError_eq_any]
  have h : rateLimitTextCheck = specRateLimitText :=
    funext rateLimitTextCheck_eq_spec
  rw [h]

/-! ### Claim C10 -/

theorem cycleGraph_none : ∀ fuel e, e ≤ 1 →
    isRateLimitErrorFuel cycleGraph fuel e = none := by
  intro fuel
  induction fuel with
  | zero => intro e _; rfl
  | succ f ih =>
    intro e he
    have htext : rateLimitTextCheck (cycleGraph.text e) = false := by
      simp [cycleGraph]
      decide
    unfold isRateLimitErrorFuel
    rw [htext]
    simp only [Bool.false_eq_true, if_false]
    interval_cases e
    · have : effCause cycleGraph 0 = some 1 := rfl
      rw [this]
      simp only [show (1 : Nat) ≠ 0 by decide, if_pos]
      exact ih 1 (by decide)
    · have : effCause cycleGraph 1 = some 0 := rfl
      rw [this]
      simp only [show (0 : Nat) ≠ 1 by decide, if_pos]
      exact ih 0 (by decide)

/-- C10: whenever the walk along `__cause__ or __context__` (cut by the
self-identity guard) dies out within `n` steps, the classifier with
recursion depth `n` terminates with a boolean, so the recursion is
bounded by the chain length; the guard only stops an error that is its
own immediate cause, and on a two-element cause cycle the classifier
finds no bound at any depth, so acyclicity is a genuine precondition
for termination. -/
theorem claim_C10 :
    (∀ (g : ExcGraph) (e n : Nat), causeChainIter g n e = none →
        ∃ b, isRateLimitErrorFuel g n e = some b) ∧
      (∀ fuel, isRateLimitErrorFuel cycleGraph fuel 0 = none) ∧
      isRateLimitErrorFuel selfGraph 1 0 = some false := by
  refine ⟨?_, fun fuel => cycleGraph_none fuel 0 (by decide), by decide⟩
  intro g e n
  induction n generalizing e with
  | zero => intro h; exact absurd h (by simp [causeChainIter])
  | succ m ih =>
    intro h
    unfold isRateLimitErrorFuel
    by_cases htext : rateLimitTextCheck (g.text e) = true
    · exact ⟨true, by rw [htext]; simp⟩
    · simp only [Bool.not_eq_true] at htext
      rw [htext]
      simp only [Bool.false_eq_true, if_false]
      cases heff : effCause g e with
      | none => exact ⟨false, rfl⟩
      | some c =>
        by_cases hce : c = e
        · exact ⟨false, by simp [hce]⟩
        · simp only [ne_eq, hce, not_false_eq_true, if_pos]
          apply ih
          unfold causeChainIter at h
          unfold causeChainStep at h
          rw [heff] at h
          simpa [hce] using h

/-- C10 witness: a causeless exception's chain dies within one step and
the classifier decides it with fuel 1. -/
theorem claim_C10_witness :
    causeChainIter lineGraph 1 0 = none ∧
      ∃ b, isRateLimitErrorFuel lineGraph 1 0 = some b :=
  ⟨rfl, claim_C10.1 lineGraph 0 1 rfl⟩

theorem exc429_isRL : isRateLimitError exc429 = true := by decide

/-! ### Claim C1 -/

/-- C1 counterexample: with one key and per-key retry allowance 1 the
budget `N*(R+1)` is `2`, yet the all-rate-limited run exhausts after
exactly one dispatch attempt, so the stated maximum `N*(R+1)` is not
reached. -/
theorem claim_C1_counterexample :
    oneKeyState.keys.length * (oneKeyState.maxRetriesPerKey + 1) = 2 ∧
      ((invoke (fun _ => .err exc429) oneKeyState).2.1).length = 1 ∧
      (invoke (fun _ => .err exc429) oneKeyState).1 = .exhausted exc429 :=
  ⟨rfl, rfl, rfl⟩

/-- C1 (amended): a single `invoke` call from a fresh cursor makes at
most `N*(R+1)` dispatch attempts, and in fact at most `N`; the true
maximum is exactly `N`, reached when every dispatch is rate-limited, so
the `N*(R+1)` bound itself is reached only when `R = 0`.  Exhaustion
occurs at or before the bound. -/
theorem claim_C1_amended (oracle : Nat → DispatchOutcome) (s : ManagerState)
    (h0 : s.currentIndex = 0) (hne : s.keys ≠ []) :
    ((invoke oracle s).2.1).length ≤
        s.keys.length * (s.maxRetriesPerKey + 1) ∧
      ((invoke oracle s).2.1).length ≤ s.keys.length ∧
      ((invoke (fun _ => .err exc429) s).2.1).length = s.keys.length := by
  have hpos : 0 < s.keys.length := List.length_pos.mpr hne
  have hN : s.keys.length ≤ s.keys.length * (s.maxRetriesPerKey + 1) :=
    Nat.le_mul_of_pos_right _ (Nat.succ_pos _)
  have hle := invokeLoop_length_le oracle
    (s.keys.length * (s.maxRetriesPerKey + 1)) s 0 (by omega)
  rw [h0] at hle
  refine ⟨by rw [invoke]; omega, by rw [invoke]; omega, ?_⟩
  have hall := invokeLoop_allRL (fun _ => exc429) (fun _ => exc429_isRL)
    (s.keys.length * (s.maxRetriesPerKey + 1)) s 0 (by omega) (by omega)
  rw [invoke, hall.2.1, List.length_range', h0, Nat.sub_zero]

/-- C1 witness for the amended theorem, at the three-key pool with
`R = 0`: at most `3*(0+1) = 3` dispatches in any run, and exactly `3`
in the all-rate-limited run. -/
theorem claim_C1_amended_witness :
    ((invoke (fun _ => .ok "hi") threeKeyState).2.1).length ≤
        threeKeyState.keys.length * (threeKeyState.maxRetriesPerKey + 1) ∧
      ((invoke (fun _ => .ok "hi") threeKeyState).2.1).length ≤
        threeKeyState.keys.length ∧
      ((invoke (fun _ => .err exc429) threeKeyState).2.1).length =
        threeKeyState.keys.length :=
  claim_C1_amended (fun _ => .ok "hi") threeKeyState rfl (by decide)

/-! ### Claim C2 -/

/-- C2: when every dispatch raises a rate-limit error, a call starting
at cursor 0 dispatches once per credential in pool order (the cursor
advancing by exactly one between consecutive detections, so the k-th
detection happens on credential k), and terminates with the in-loop
all-keys-exhausted raise chained to the error raised on the last
credential. -/
theorem claim_C2 (errs : Nat → PyExc)
    (hAll : ∀ k, isRateLimitError (errs k) = true)
    (s : ManagerState) (h0 : s.currentIndex = 0) (hne : s.keys ≠ []) :
    (invoke (fun k => .err (errs k)) s).1 =
        .exhausted (errs (s.keys.length - 1)) ∧
      (invoke (fun k => .err (errs k)) s).2.1 = List.range s.keys.length ∧
      (invoke (fun k => .err (errs k)) s).2.2.currentIndex =
        s.keys.length - 1 := by
  have hpos : 0 < s.keys.length := List.length_pos.mpr hne
  have hN : s.keys.length ≤ s.keys.length * (s.maxRetriesPerKey + 1) :=
    Nat.le_mul_of_pos_right _ (Nat.succ_pos _)
  have hall := invokeLoop_allRL errs hAll
    (s.keys.length * (s.maxRetriesPerKey + 1)) s 0 (by omega) (by omega)
  rw [h0] at hall
  simp only [Nat.zero_add, Nat.sub_zero] at hall
  refine ⟨?_, ?_, ?_⟩
  · rw [invoke, hall.1]
  · rw [invoke, hall.2.1, List.range_eq_range']
  · rw [invoke, hall.2.2.1]

/-- C2 witness: three keys, every dispatch rate-limited. -/
theorem claim_C2_witness :
    (invoke (fun _ => .err exc429) threeKeyState).1 =
        .exhausted (exc429) ∧
      (invoke (fun _ => .err exc429) threeKeyState).2.1 = List.range 3 ∧
      (invoke (fun _ => .err exc429) threeKeyState).2.2.currentIndex = 2 :=
  claim_C2 (fun _ => exc429) (fun _ => exc429_isRL) threeKeyState rfl (by decide)

/-! ### Claim C3 -/

/-- C3: whenever a dispatch raises an error the classifier does not
recognise as a rate-limit error, the loop re-raises that exact error
object immediately, performs no further dispatch and no rotation, and
leaves the whole state — cursor and bound handle included — as it was
at that dispatch; in particular an `invoke` whose first dispatch fails
this way propagates the error with the entry state unchanged. -/
theorem claim_C3 (oracle : Nat → DispatchOutcome) (s : ManagerState)
    (e : PyExc) (hnr : isRateLimitError e = false) :
    (∀ fuel d, oracle d = .err e →
        invokeLoop oracle (fuel + 1) s d =
          (.propagated e, [s.currentIndex], s)) ∧
      (s.keys ≠ [] → oracle 0 = .err e →
        invoke oracle s = (.propagated e, [s.currentIndex], s)) := by
  have hgen : ∀ fuel d, oracle d = .err e →
      invokeLoop oracle (fuel + 1) s d =
        (.propagated e, [s.currentIndex], s) := by
    intro fuel d horacle
    unfold invokeLoop
    rw [horacle]
    simp [hnr]
  refine ⟨hgen, fun hne h0 => ?_⟩
  have hpos : 0 < s.keys.length * (s.maxRetriesPerKey + 1) :=
    Nat.mul_pos (List.length_pos.mpr hne) (Nat.succ_pos _)
  obtain ⟨m, hm⟩ := Nat.exists_eq_add_of_lt hpos
  rw [invoke, hm, Nat.zero_add]
  exact hgen m 0 h0

/-- C3 witness: a non-rate-limit error on the first dispatch of a
three-key manager is propagated with one dispatch and unchanged state. -/
theorem claim_C3_witness :
    (∀ fuel d, (fun _ => DispatchOutcome.err excBoom) d = .err excBoom →
        invokeLoop (fun _ => .err excBoom) (fuel + 1) threeKeyState d =
          (.propagated excBoom, [threeKeyState.currentIndex], threeKeyState)) ∧
      invoke (fun _ => .err excBoom) threeKeyState =
        (.propagated excBoom, [threeKeyState.currentIndex], threeKeyState) := by
  have h := claim_C3 (fun _ => .err excBoom) threeKeyState excBoom (by decide)
  exact ⟨h.1, h.2 (by decide) rfl⟩

/-! ### Claim C5 -/

/-- C5: within one `invoke` call the dispatched credential indices are
pairwise strictly increasing — so the call never dispatches twice on the
same credential and moves to a strictly later credential on each
further attempt, regardless of the per-key retry allowance. -/
theorem claim_C5 (oracle : Nat → DispatchOutcome) (s : ManagerState) :
    List.Pairwise (· < ·) ((invoke oracle s).2.1) ∧
      ((invoke oracle s).2.1).Nodup := by
  obtain ⟨k, hk⟩ := invokeLoop_dispatches_range oracle
    (s.keys.length * (s.maxRetriesPerKey + 1)) s 0
  rw [invoke, hk]
  exact ⟨List.pairwise_lt_range' _ _, (List.pairwise_lt_range' _ _).nodup⟩

/-! ### Claim C6 -/

/-- C6: for a client whose pool is non-empty, the defensive raise after
the while loop is unreachable: no `invoke` outcome is the safety-net
exhaustion, whatever the dispatch behaviour and wherever the cursor
stands. -/
theorem claim_C6 (oracle : Nat → DispatchOutcome) (s : ManagerState)
    (hne : s.keys ≠ []) :
    (invoke oracle s).1 ≠ .exhaustedSafetyNet := by
  have hpos : 0 < s.keys.length := List.length_pos.mpr hne
  have hN : s.keys.length ≤ s.keys.length * (s.maxRetriesPerKey + 1) :=
    Nat.le_mul_of_pos_right _ (Nat.succ_pos _)
  rw [invoke]
  exact invokeLoop_ne_safetyNet oracle _ s 0 (by omega) (by omega)

/-- C6 witness: the one-key all-rate-limited run does not end in the
safety net. -/
theorem claim_C6_witness :
    (invoke (fun _ => .err exc429) oneKeyState).1 ≠ .exhaustedSafetyNet :=
  claim_C6 (fun _ => .err exc429) oneKeyState (by decide)

/-! ### Claim C7 -/

/-- C7: construction fails with the configuration `ValueError` exactly
when key discovery yields no credentials, producing no state at all;
with at least one discovered credential it succeeds, with the cursor at
index 0 and the handle built from credential 0. -/
theorem claim_C7 (model : String) (R : Nat) (env : List (String × String)) :
    (loadKeys env = [] →
        initManager model R env =
          .error "No Groq API keys found in .env. Expected GROQ_API_KEY, GROQ_API_KEY_0, GROQ_API_KEY_1, ...") ∧
      (∀ k ks, loadKeys env = k :: ks →
        initManager model R env =
          .ok { model := model, maxRetriesPerKey := R, keys := k :: ks,
                currentIndex := 0, llm := buildLlm model k }) := by
  constructor
  · intro h
    simp [initManager, h]
  · intro k ks h
    simp [initManager, h]

/-- C7 witness: an environment carrying one key constructs a manager
bound to it; the empty environment fails with the configuration error. -/
theorem claim_C7_witness :
    initManager "m" 1 [("GROQ_API_KEY", "abc")] =
        .ok { model := "m", maxRetriesPerKey := 1, keys := ["abc"],
              currentIndex := 0, llm := buildLlm "m" "abc" } ∧
      initManager "m" 1 [] =
        .error "No Groq API keys found in .env. Expected GROQ_API_KEY, GROQ_API_KEY_0, GROQ_API_KEY_1, ..." :=
  ⟨(claim_C7 "m" 1 [("GROQ_API_KEY", "abc")]).2 "abc" [] rfl,
    (claim_C7 "m" 1 []).1 rfl⟩

/-! ### Claim C8 -/

/-- C8: from any prior rotation state, `reset` returns the cursor to
index 0, keeps the pool, and rebuilds the bound handle from the first
credential; the next `invoke` call's first dispatch then uses
credential 0. -/
theorem claim_C8 (oracle : Nat → DispatchOutcome) (s : ManagerState)
    (hne : s.keys ≠ []) :
    (reset s).currentIndex = 0 ∧ (reset s).keys = s.keys ∧
      (reset s).llm = buildLlm s.model (s.keys.getD 0 "") ∧
      ((invoke oracle (reset s)).2.1).head? = some 0 := by
  refine ⟨rfl, rfl, rfl, ?_⟩
  have hpos : 0 < (reset s).keys.length * ((reset s).maxRetriesPerKey + 1) :=
    Nat.mul_pos (List.length_pos.mpr hne) (Nat.succ_pos _)
  obtain ⟨m, hm⟩ := Nat.exists_eq_add_of_lt hpos
  rw [invoke, hm, Nat.zero_add]
  exact invokeLoop_head oracle m (reset s) 0

/-- C8 witness: a two-key manager already rotated to key 1 is reset and
its next call dispatches on credential 0. -/
theorem claim_C8_witness :
    (reset rotatedState).currentIndex = 0 ∧
      (reset rotatedState).keys = rotatedState.keys ∧
      (reset rotatedState).llm =
        buildLlm rotatedState.model (rotatedState.keys.getD 0 "") ∧
      ((invoke (fun _ => .ok "t") (reset rotatedState)).2.1).head? = some 0 :=
  claim_C8 (fun _ => .ok "t") rotatedState (by decide)

/-! ### Claim C9 -/

instance : IsTotal (String × String) envRel := by
  constructor
  intro a b
  unfold envRel
  rcases lt_trichotomy a.1.data b.1.data with h | h | h
  · exact Or.inl (Or.inl h)
  · rcases lt_trichotomy a.2.data b.2.data with h2 | h2 | h2
    · exact Or.inl (Or.inr ⟨h, Or.inl h2⟩)
    · exact Or.inl (Or.inr ⟨h, Or.inr h2⟩)
    · exact Or.inr (Or.inr ⟨h.symm, Or.inl h2⟩)
  · exact Or.inr (Or.inl h)

instance : IsTrans (String × String) envRel := by
  constructor
  intro a b c hab hbc
  unfold envRel at hab hbc ⊢
  rcases hab with h1 | ⟨h1, h2⟩ <;> rcases hbc with h3 | ⟨h3, h4⟩
  · exact Or.inl (h1.trans h3)
  · exact Or.inl (h3 ▸ h1)
  · exact Or.inl (h1 ▸ h3)
  · refine Or.inr ⟨h1.trans h3, ?_⟩
    rcases h2 with h2 | h2 <;> rcases h4 with h4 | h4
    · exact Or.inl (h2.trans h4)
    · exact Or.inl (h4 ▸ h2)
    · exact Or.inl (h2 ▸ h4)
    · exact Or.inr (h2.trans h4)

instance : IsAntisymm (String × String) envRel := by
  constructor
  intro a b hab hba
  rcases hab with h1 | ⟨h1, h2⟩
  · rcases hba with h3 | ⟨h3, _⟩
    · exact absurd h3 (lt_asymm h1)
    · exact absurd (h3 ▸ h1) (lt_irrefl _)
  · rcases hba with h3 | ⟨_, h4⟩
    · exact absurd (h1 ▸ h3) (lt_irrefl _)
    · have hv : a.2.data = b.2.data := by
        rcases h2 with h2 | h2 <;> rcases h4 with h4 | h4
        · exact absurd (h2.trans h4) (lt_irrefl _)
        · exact h4.symm
        · exact h2
        · exact h2
      exact Prod.ext (String.ext h1) (String.ext hv)

/-- Sorting is a function of the multiset of entries: iteration order of
the configuration source cannot change the sorted sequence. -/
theorem sortEnv_perm {env env2 : List (String × String)}
    (h : env.Perm env2) :
    List.insertionSort envRel env = List.insertionSort envRel env2 :=
  List.eq_of_perm_of_sorted
    ((List.perm_insertionSort envRel env).trans
      (h.trans (List.perm_insertionSort envRel env2).symm))
    (List.sorted_insertionSort envRel env)
    (List.sorted_insertionSort envRel env2)

theorem loadKeysGo_mono :
    ∀ (rest : List (String × String)) (keys seen : List String) (x : String),
      x ∈ keys → x ∈ loadKeysGo rest keys seen := by
  intro rest
  induction rest with
  | nil => intro keys seen x hx; exact hx
  | cons p rest ih =>
    intro keys seen x hx
    obtain ⟨n, v⟩ := p
    rw [loadKeysGo]
    split
    · dsimp only
      split
      · exact ih _ _ x (by simp [hx])
      · exact ih _ _ x hx
    · exact ih _ _ x hx

theorem loadKeysGo_nodup :
    ∀ (rest : List (String × String)) (keys seen : List String),
      (∀ x, seen.contains x = true ↔ x ∈ keys) → keys.Nodup →
      (loadKeysGo rest keys seen).Nodup := by
  intro rest
  induction rest with
  | nil => intro keys seen _ hnd; exact hnd
  | cons p rest ih =>
    intro keys seen hsync hnd
    obtain ⟨n, v⟩ := p
    rw [loadKeysGo]
    split
    · dsimp only
      split
      · rename_i hcond
        have hnotseen : seen.contains (cleanValue v) = false := by
          cases hct : seen.contains (cleanValue v) with
          | false => rfl
          | true => rw [hct] at hcond; simp at hcond
        have hnot : cleanValue v ∉ keys := by
          intro hmem
          have hc := (hsync (cleanValue v)).mpr hmem
          rw [hnotseen] at hc
          exact Bool.noConfusion hc
        refine ih _ _ ?_ ?_
        · intro x
          simp only [List.contains_cons, Bool.or_eq_true, beq_iff_eq,
            hsync x, List.mem_append, List.mem_singleton]
          tauto
        · simp [List.nodup_append, hnd, hnot]
      · exact ih _ _ hsync hnd
    · exact ih _ _ hsync hnd

theorem loadKeysGo_sound :
    ∀ (rest : List (String × String)) (keys seen : List String)
      (x : String), x ∈ loadKeysGo rest keys seen →
      x ∈ keys ∨ (x ≠ "" ∧ ∃ p ∈ rest, matchesKeyPattern p.1 = true ∧
        p.2 ≠ "" ∧ cleanValue p.2 = x) := by
  intro rest
  induction rest with
  | nil => intro keys seen x hx; exact Or.inl hx
  | cons p rest ih =>
    intro keys seen x hx
    obtain ⟨n, v⟩ := p
    rw [loadKeysGo] at hx
    split at hx
    · rename_i hm
      dsimp only at hx
      split at hx
      · rename_i hc
        rcases ih _ _ x hx with hk | ⟨hne, q, hq, hq2, hq3, hq4⟩
        · rcases List.mem_append.mp hk with hk | hk
          · exact Or.inl hk
          · refine Or.inr ⟨?_, (n, v), by simp, ?_, ?_, ?_⟩ <;>
              simp_all [bne_iff_ne]
        · exact Or.inr ⟨hne, q, by simp [hq], hq2, hq3, hq4⟩
      · rcases ih _ _ x hx with hk | ⟨hne, q, hq, hq2, hq3, hq4⟩
        · exact Or.inl hk
        · exact Or.inr ⟨hne, q, by simp [hq], hq2, hq3, hq4⟩
    · rcases ih _ _ x hx with hk | ⟨hne, q, hq, hq2, hq3, hq4⟩
      · exact Or.inl hk
      · exact Or.inr ⟨hne, q, by simp [hq], hq2, hq3, hq4⟩

set_option maxHeartbeats 1000000 in
theorem loadKeysGo_complete :
    ∀ (rest : List (String × String)) (keys seen : List String),
      (∀ x, seen.contains x = true ↔ x ∈ keys) →
      ∀ p ∈ rest, matchesKeyPattern p.1 = true → p.2 ≠ "" →
        cleanValue p.2 ≠ "" → cleanValue p.2 ∈ loadKeysGo rest keys seen := by
  intro rest
  induction rest with
  | nil => intro keys seen _ p hp; simp at hp
  | cons q rest ih =>
    intro keys seen hsync p hp hpm hpv hpc
    obtain ⟨n, v⟩ := q
    rcases List.mem_cons.mp hp with hp | hp
    · subst hp
      dsimp only at hpm hpv hpc ⊢
      rw [loadKeysGo]
      have h1 : (matchesKeyPattern n && v != "") = true := by
        simp [hpm, bne_iff_ne, hpv]
      rw [if_pos h1]
      dsimp only
      by_cases h2 : (cleanValue v != "" && !seen.contains (cleanValue v)) = true
      · rw [if_pos h2]
        exact loadKeysGo_mono _ _ _ _ (by simp)
      · rw [if_neg h2]
        have hcontains : seen.contains (cleanValue v) = true := by
          cases hc : seen.contains (cleanValue v) with
          | true => rfl
          | false =>
            refine absurd ?_ h2
            rw [hc]
            simp [bne_iff_ne, hpc]
        exact loadKeysGo_mono _ _ _ _ ((hsync _).mp hcontains)
    · rw [loadKeysGo]
      split
      · dsimp only
        split
        · rename_i hcond
          refine ih _ _ ?_ p hp hpm hpv hpc
          intro x
          simp only [List.contains_cons, Bool.or_eq_true, List.mem_append,
            List.mem_singleton, hsync x, beq_iff_eq]
          tauto
        · exact ih _ _ hsync p hp hpm hpv hpc
      · exact ih _ _ hsync p hp hpm hpv hpc

/-- C9: key discovery is a deterministic function of the multiset of
configuration entries (any two iteration orders give the same pool, in
particular reruns with the same configuration reproduce the same
rotation order); the pool is duplicate-free; every pool entry is the
non-blank cleaned value of an entry whose name matches the
`GROQ_API_KEY(_n)?` convention and whose raw value is non-empty; and
every such entry's cleaned value, when non-blank, appears in the pool. -/
theorem claim_C9 (env env2 : List (String × String)) (hperm : env.Perm env2) :
    loadKeys env = loadKeys env2 ∧
      (loadKeys env).Nodup ∧
      (∀ x ∈ loadKeys env, x ≠ "" ∧ ∃ p ∈ env,
        matchesKeyPattern p.1 = true ∧ p.2 ≠ "" ∧ cleanValue p.2 = x) ∧
      (∀ p ∈ env, matchesKeyPattern p.1 = true → p.2 ≠ "" →
        cleanValue p.2 ≠ "" → cleanValue p.2 ∈ loadKeys env) := by
  have hsync0 : ∀ x : String, List.contains [] x = true ↔ x ∈ ([] : List String) := by
    simp
  refine ⟨?_, ?_, ?_, ?_⟩
  · rw [loadKeys, loadKeys, sortEnv_perm hperm]
  · exact loadKeysGo_nodup _ _ _ hsync0 List.nodup_nil
  · intro x hx
    rcases loadKeysGo_sound _ _ _ x hx with hk | ⟨hne, p, hp, h1, h2, h3⟩
    · simp at hk
    · exact ⟨hne, p, (List.perm_insertionSort envRel env).mem_iff.mp hp,
        h1, h2, h3⟩
  · intro p hp h1 h2 h3
    exact loadKeysGo_complete _ _ _ hsync0 p
      ((List.perm_insertionSort envRel env).mem_iff.mpr hp) h1 h2 h3

/-- C9 witness: a three-entry environment given in two different orders
yields the same two-key pool; the blank and duplicate values are
dropped and each kept key traces back to a matching entry. -/
theorem claim_C9_witness :
    loadKeys [("GROQ_API_KEY_1", "k1"), ("GROQ_API_KEY", "k0"), ("OTHER", "z")] =
        loadKeys [("GROQ_API_KEY", "k0"), ("OTHER", "z"), ("GROQ_API_KEY_1", "k1")] ∧
      (loadKeys [("GROQ_API_KEY_1", "k1"), ("GROQ_API_KEY", "k0"), ("OTHER", "z")]).Nodup ∧
      (∀ x ∈ loadKeys [("GROQ_API_KEY_1", "k1"), ("GROQ_API_KEY", "k0"), ("OTHER", "z")],
        x ≠ "" ∧ ∃ p ∈ [("GROQ_API_KEY_1", "k1"), ("GROQ_API_KEY", "k0"), ("OTHER", "z")],
          matchesKeyPattern p.1 = true ∧ p.2 ≠ "" ∧ cleanValue p.2 = x) ∧
      (∀ p ∈ [("GROQ_API_KEY_1", "k1"), ("GROQ_API_KEY", "k0"), ("OTHER", "z")],
        matchesKeyPattern p.1 = true → p.2 ≠ "" → cleanValue p.2 ≠ "" →
          cleanValue p.2 ∈ loadKeys [("GROQ_API_KEY_1", "k1"), ("GROQ_API_KEY", "k0"), ("OTHER", "z")]) :=
  claim_C9 [("GROQ_API_KEY_1", "k1"), ("GROQ_API_KEY", "k0"), ("OTHER", "z")]
    [("GROQ_API_KEY", "k0"), ("OTHER", "z"), ("GROQ_API_KEY_1", "k1")]
    (List.perm_append_singleton _ _).symm

end GroqRotation
